import Mathlib

set_option maxHeartbeats 1000000

/-!
Shallow embedding of the bounded-concurrency OCR extraction pipeline of
`src/App.tsx` (the `App` component: `stopExtraction`, `handleFileUpload`,
`processPage`) together with `performOCR` from the Gemini service module and
the record types from `src/unnamed/part_000` (`types.ts`).

Modelling conventions:
* JavaScript numbers used as counters, timestamps and durations are `Nat`
  (they are nonnegative integers in every code path modelled here).
* `Date.now()` is an abstract monotone clock: each page environment carries
  the elapsed milliseconds of its rasterization (`rasterMs`) and of its
  `performOCR` call (`ocrMs`), and timestamps are obtained by adding the
  elapsed amounts in program order.
* The external Gemini call inside `performOCR` is an oracle `ServiceResp`:
  either the API throws with a message, or it returns a response whose
  `text` field is a (possibly empty) string.
* Promise rejection / `throw` is `Except.error`; `return null` is `none`.
* React `setDocState prev => ...` updaters are state-transformer functions;
  in the browser each updater runs atomically on the event loop, so a run is
  an interleaving of these transformers.  The deterministic function
  `handleFileUpload` below models an uncancelled run; the inductive relation
  `RunStep` further below models the individual mutation events (including
  cancellation races) with their guards, for arbitrary completion orders.
-/

/-- Run status, the `status` field of `DocumentState` in `types.ts`:
`'idle' | 'processing' | 'completed' | 'error'`. -/
inductive Status
  | idle
  | processing
  | completed
  | error
deriving DecidableEq

/-- One extracted page, `OCRPage` in `types.ts`.  `App.tsx` always populates
`imagePreview` and `durationMs` when it constructs a page (lines 103-108), so
they are modelled as plain fields. -/
structure OCRPage where
  pageNumber : Nat
  extractedText : String
  imagePreview : String
  durationMs : Nat
deriving DecidableEq

/-- The aggregate `DocumentState` of `types.ts` / the `docState` React state. -/
structure DocumentState where
  fileName : String
  pages : List OCRPage
  fullText : String
  status : Status
  progress : Nat
  totalDurationMs : Option Nat
  startTime : Option Nat
deriving DecidableEq

/-- The mutable state of the `App` component that the pipeline touches:
`docState`, the `apiError` banner state, and the `isTerminatedRef` flag
(the run's cancellation token). -/
structure AppState where
  docState : DocumentState
  apiError : Option String
  isTerminated : Bool
deriving DecidableEq

/-- The fixed separator used to join page texts (`App.tsx` line 142). -/
def separator : String := "\n\n---\n\n"

/-- Comparison key used by `[...].sort((a, b) => a.pageNumber - b.pageNumber)`. -/
def pageLe (a b : OCRPage) : Prop := a.pageNumber ≤ b.pageNumber

instance : DecidableRel pageLe := fun a b => Nat.decLe a.pageNumber b.pageNumber

instance : IsTotal OCRPage pageLe := ⟨fun a b => Nat.le_total a.pageNumber b.pageNumber⟩

instance : IsTrans OCRPage pageLe := ⟨fun _ _ _ h₁ h₂ => Nat.le_trans h₁ h₂⟩

/-- JavaScript's stable `Array.prototype.sort` with the comparator
`(a, b) => a.pageNumber - b.pageNumber`, i.e. a stable sort ascending by
`pageNumber`. -/
def sortPages (l : List OCRPage) : List OCRPage := l.insertionSort pageLe

/-- Keys of a page list. -/
def keysOf (l : List OCRPage) : List Nat := l.map OCRPage.pageNumber

/-- `Math.round((m / T) * 100)` for naturals: round half up, i.e.
`⌊(100 * m / T) + 1 / 2⌋ = (200 * m + T) / (2 * T)`.  At every instance used
in this development the floating-point computation of the source is exact, so
the rational model coincides with it. -/
def jsRound (m T : Nat) : Nat := (200 * m + T) / (2 * T)

/-- The `setDocState` updater dispatched by `processPage` on a successful page
(`App.tsx` lines 111-115): append the new page, re-sort by `pageNumber`, and
recompute `progress`. -/
def pageUpdate (totalPages : Nat) (newPage : OCRPage) (prev : DocumentState) : DocumentState :=
  let updatedPages := sortPages (prev.pages ++ [newPage])
  { prev with pages := updatedPages, progress := jsRound updatedPages.length totalPages }

/-- The guarded success side effect of `processPage` (`App.tsx` lines 110-116):
the update is dispatched only when `isTerminatedRef.current` is still false. -/
def applyIncremental (totalPages : Nat) (st : AppState) (newPage : OCRPage) : AppState :=
  if st.isTerminated then st
  else { st with docState := pageUpdate totalPages newPage st.docState }

/-- Apply the success side effects of a list of settled pages in order. -/
def applySuccesses (totalPages : Nat) (st : AppState) (ps : List OCRPage) : AppState :=
  ps.foldl (applyIncremental totalPages) st

/-- `stopExtraction` (`App.tsx` lines 51-55): set the cancellation flag, move
`docState` to `idle` with `progress` 0 keeping all other fields (`...prev`),
and surface the termination banner. -/
def stopExtraction (s : AppState) : AppState :=
  { s with
    isTerminated := true
    docState := { s.docState with status := .idle, progress := 0 }
    apiError := some "Processing terminated by user." }

/-- The `catch` block of `handleFileUpload` (`App.tsx` lines 153-157):
`setApiError(error.message || fallback)` and `status := 'error'` keeping all
other `docState` fields (`...prev`). -/
def applyError (msg : String) (s : AppState) : AppState :=
  { s with
    apiError := some (if msg = "" then "A critical error occurred during processing." else msg)
    docState := { s.docState with status := .error } }

/-- The reset performed at the start of `handleFileUpload` (`App.tsx` lines
61-72): clear the cancellation flag and the error banner and install a fresh
`docState`.  The prior state is ignored entirely: the new `docState` object
literal has no `totalDurationMs`, so it resets to `none`. -/
def handleFileUploadReset (_prior : AppState) (fileName : String) (t0 : Nat) : AppState :=
  { docState := { fileName := fileName, pages := [], fullText := "", status := .processing,
                  progress := 0, totalDurationMs := none, startTime := some t0 }
    apiError := none
    isTerminated := false }

/-- Oracle for one call of the Gemini `generateContent` API inside
`performOCR`: the call either throws with a message or returns a response
whose `text` is the given (possibly empty) string. -/
inductive ServiceResp
  | ok (text : String)
  | fail (msg : String)
deriving DecidableEq

deriving instance DecidableEq for Except

/-- Does the second list start with the first? -/
def leadsWith : List Char → List Char → Bool
  | [], _ => true
  | _ :: _, [] => false
  | a :: as, b :: bs => a == b && leadsWith as bs

/-- Does the list contain the pattern as a contiguous sublist? -/
def containsCL (pat : List Char) : List Char → Bool
  | [] => pat.isEmpty
  | c :: cs => leadsWith pat (c :: cs) || containsCL pat cs

/-- JavaScript `msg.includes(pat)`. -/
def containsSub (s pat : String) : Bool := containsCL pat.data s.data

/-- `performOCR` from the Gemini service module (`App.tsx` bundle lines
436-487): a missing API key throws before the service is called; inside the
`try`, an empty `response.text` throws `"Empty response from AI model."`; the
`catch` classifies whatever message reached it (including that inner throw)
into the credential / rate-limit / network buckets or wraps it in
`"OCR Processing Failed: ..."`. -/
def performOCR (apiKey : String) (resp : ServiceResp) : Except String String :=
  if apiKey = "" then
    .error "API Key is missing. Please ensure process.env.API_KEY is configured."
  else
    let attempt : Except String String :=
      match resp with
      | .fail msg => .error msg
      | .ok t => if t = "" then .error "Empty response from AI model." else .ok t
    match attempt with
    | .ok t => .ok t
    | .error msg =>
      if containsSub msg "403" || containsSub msg "API_KEY_INVALID" then
        .error "Invalid API Key. Authentication failed."
      else if containsSub msg "429" then
        .error "Rate limit exceeded. Please wait a moment."
      else if containsSub msg "fetch" then
        .error "Network error: Could not connect to Google Gemini API."
      else
        .error ("OCR Processing Failed: " ++ msg)

/-- Environment of one `processPage` call: whether `pdf.getPage`/`getViewport`
throws, how long rasterization takes, whether `canvas.getContext('2d')`
returns a context, whether `page.render` throws, the `toDataURL` preview
string, the OCR service oracle, and how long the `performOCR` call takes. -/
structure PageEnv where
  getPageFail : Option String
  rasterMs : Nat
  ctxOk : Bool
  renderFail : Option String
  image : String
  resp : ServiceResp
  ocrMs : Nat
deriving DecidableEq

/-- The value computed by `processPage` (`App.tsx` lines 80-125), excluding its
guarded `setDocState` side effect, which is `applyIncremental` above.
`cancelledAtEntry` and `cancelledAfterRaster` are the values of
`isTerminatedRef.current` read at lines 81 and 97.  A thrown error is caught
at line 120 and re-thrown, so it propagates as `Except.error`; a missing 2D
context skips the whole block and returns `null` (line 124).  The timestamps
`pStart`/`pEnd` are taken immediately around the `performOCR` call
(lines 99-101), after rasterization has already consumed `rasterMs`. -/
def processPage (cancelledAtEntry cancelledAfterRaster : Bool) (apiKey : String)
    (env : PageEnv) (pageNum : Nat) (t0 : Nat) : Except String (Option OCRPage) :=
  if cancelledAtEntry then .ok none
  else
    match env.getPageFail with
    | some msg => .error msg
    | none =>
      if env.ctxOk then
        match env.renderFail with
        | some msg => .error msg
        | none =>
          if cancelledAfterRaster then .ok none
          else
            let pStart := t0 + env.rasterMs
            match performOCR apiKey env.resp with
            | .error msg => .error msg
            | .ok text =>
              let pEnd := pStart + env.ocrMs
              .ok (some { pageNumber := pageNum, extractedText := text,
                          imagePreview := env.image, durationMs := pEnd - pStart })
      else .ok none

/-- Chunking worker, structurally recursive on a fuel that bounds the list
length (so that the kernel can evaluate it). -/
def chunksOfGo (K : Nat) : Nat → List Nat → List (List Nat)
  | _, [] => []
  | 0, _ :: _ => []
  | fuel + 1, a :: l => (a :: l.take (K - 1)) :: chunksOfGo K fuel (l.drop (K - 1))

/-- The chunking performed by the `for` loop of `App.tsx` lines 132-137:
`pageNumbers.slice(i, i + K)` for `i = 0, K, 2K, ...`. -/
def chunksOf (K : Nat) (l : List Nat) : List (List Nat) := chunksOfGo K l.length l

/-- The worker ignores the exact fuel as long as it suffices. -/
theorem chunksOfGo_congr (K : Nat) : ∀ (fuel fuel' : Nat) (l : List Nat),
    l.length ≤ fuel → l.length ≤ fuel' → chunksOfGo K fuel l = chunksOfGo K fuel' l := by
  intro fuel
  induction fuel with
  | zero =>
    intro fuel' l h _
    cases l with
    | nil => cases fuel' <;> rfl
    | cons a l => exact absurd h (by simp)
  | succ fuel ih =>
    intro fuel' l h h'
    cases l with
    | nil => cases fuel' <;> rfl
    | cons a l =>
      cases fuel' with
      | zero => exact absurd h' (by simp)
      | succ fuel' =>
        show (a :: l.take (K - 1)) :: chunksOfGo K fuel (l.drop (K - 1)) =
          (a :: l.take (K - 1)) :: chunksOfGo K fuel' (l.drop (K - 1))
        rw [ih fuel' (l.drop (K - 1))
          (by rw [List.length_drop]; simp at h; omega)
          (by rw [List.length_drop]; simp at h'; omega)]

/-- One unfolding step of the chunking loop. -/
theorem chunksOf_cons (K : Nat) (a : Nat) (l : List Nat) :
    chunksOf K (a :: l) = (a :: l.take (K - 1)) :: chunksOf K (l.drop (K - 1)) := by
  show chunksOfGo K (l.length + 1) (a :: l) = _
  show (a :: l.take (K - 1)) :: chunksOfGo K l.length (l.drop (K - 1)) = _
  rw [chunksOfGo_congr K l.length (l.drop (K - 1)).length (l.drop (K - 1))
    (by rw [List.length_drop]; omega) (Nat.le_refl _)]
  rfl

/-- `concurrencyLimit` (`App.tsx` line 128). -/
def concurrencyLimit : Nat := 12

/-- The rejection reason of `Promise.all` over a batch, modelled as the first
rejection in batch order (the code never inspects which sibling rejected
first, so no claim depends on this choice). -/
def firstErr : List (Except String (Option OCRPage)) → Option String
  | [] => none
  | Except.error m :: _ => some m
  | Except.ok _ :: rest => firstErr rest

/-- The non-null results of a fully resolved batch, in batch order
(`batchResults.filter(r => r !== null)`, `App.tsx` line 136).  `Promise.all`
resolves to the results in dispatch order, independently of completion
order. -/
def oksOf : List (Except String (Option OCRPage)) → List OCRPage
  | [] => []
  | Except.ok (some p) :: rest => p :: oksOf rest
  | Except.ok none :: rest => oksOf rest
  | Except.error _ :: rest => oksOf rest

/-- The successful pages of a rejecting batch whose incremental updates are
applied before the rejection is observed (modelled as those preceding the
first failure in batch order; in-flight siblings may also land later, which
the relation `RunStep` below covers). -/
def oksBeforeErr : List (Except String (Option OCRPage)) → List OCRPage
  | [] => []
  | Except.ok (some p) :: rest => p :: oksBeforeErr rest
  | Except.ok none :: rest => oksBeforeErr rest
  | Except.error _ :: _ => []

/-- The chunked dispatch loop of `handleFileUpload` (`App.tsx` lines 130-137)
for an uncancelled run: process one batch at a time; a rejecting batch aborts
the loop with the rejection reason, otherwise the non-null results are pushed
onto the accumulator and the loop continues.  The incremental `setDocState`
updates of each settled successful page are threaded through the state. -/
def runChunks (apiKey : String) (totalPages : Nat) (envs : Nat → PageEnv) :
    List (List Nat) → AppState → List OCRPage → AppState × List OCRPage × Option String
  | [], st, acc => (st, acc, none)
  | b :: bs, st, acc =>
    if st.isTerminated then (st, acc, none)
    else
      let outs := b.map fun i => processPage false false apiKey (envs i) i 0
      match firstErr outs with
      | some msg => (applySuccesses totalPages st (oksBeforeErr outs), acc, some msg)
      | none =>
        runChunks apiKey totalPages envs bs (applySuccesses totalPages st (oksOf outs))
          (acc ++ oksOf outs)

/-- A full uncancelled `handleFileUpload` run (`App.tsx` lines 57-158):
reset the state, load the PDF (`loadFail` models a throwing
`getDocument`/`arrayBuffer`), chunk the page numbers `1..T` by
`concurrencyLimit`, run the batches, and either land in the `catch`
(`applyError`) or finalize: re-sort the results, join their texts with the
fixed separator, and move to `completed` with `progress` 100. -/
def handleFileUpload (prior : AppState) (fileName : String) (t0 : Nat) (apiKey : String)
    (loadFail : Option String) (totalPages : Nat) (envs : Nat → PageEnv) (tEnd : Nat) :
    AppState :=
  let st0 := handleFileUploadReset prior fileName t0
  match loadFail with
  | some msg => applyError msg st0
  | none =>
    let out := runChunks apiKey totalPages envs
      (chunksOf concurrencyLimit (List.range' 1 totalPages)) st0 []
    match out.2.2 with
    | some msg => applyError msg out.1
    | none =>
      if out.1.isTerminated then out.1
      else
        let results := sortPages out.2.1
        { out.1 with docState := { out.1.docState with
            pages := results
            fullText := String.intercalate separator (results.map OCRPage.extractedText)
            status := .completed
            progress := 100
            totalDurationMs := some (tEnd - t0) } }

/-!
Event-level model of a single run.  The React `setDocState` updaters run
atomically on the event loop, so a run is an interleaving of the mutation
events below.  `pending` is the set of page tasks of this run that have not
yet settled (each page number is dispatched exactly once per run), and
`results` accumulates the successful pages in settle order; since the final
`setDocState` of `handleFileUpload` re-sorts `results` (line 141), the settle
order never influences the completed state.  The model conflates the per-page
`results.push` with the settle event, which is observationally equivalent for
every property proved here.
-/

/-- Configuration of one run: the component state plus the run's total page
count and the ghost bookkeeping of outstanding tasks and accumulated
results. -/
structure Config where
  app : AppState
  totalPages : Nat
  pending : List Nat
  results : List OCRPage
deriving DecidableEq

/-- The initial configuration of a run over `T` pages, right after the reset
of `handleFileUpload` lines 61-72 dispatched the run. -/
def startConfig (fileName : String) (t0 : Nat) (T : Nat) : Config :=
  { app := handleFileUploadReset ⟨⟨"", [], "", .idle, 0, none, none⟩, none, false⟩ fileName t0
    totalPages := T
    pending := List.range' 1 T
    results := [] }

/-- One atomic mutation event of a run.
* `settle`: a page task resolves successfully while the cancellation flag is
  still clear (`App.tsx` lines 103-118): its guarded `setDocState` fires.
* `drop`: a page task settles without touching the state: it returned `null`
  at a cancellation checkpoint (lines 81, 97), or the 2D context was
  unavailable (line 124), or it rejected (the rejection itself is the
  separate `errStep` event), or it resolved successfully after cancellation
  with the guard at line 110 suppressing the update.
* `cancel`: `stopExtraction` fires; the terminate button is only rendered
  while `status === 'processing'` (lines 251, 282-287).
* `errStep`: the `catch` of `handleFileUpload` fires (lines 153-157); this is
  impossible after the `completed` transition, which is the last statement of
  the `try`.
* `complete`: the final `setDocState` (lines 139-151) fires after every task
  has settled with the cancellation flag still clear. -/
inductive RunStep : Config → Config → Prop
  | settle (c : Config) (i : Nat) (text img : String) (dur : Nat)
      (hp : i ∈ c.pending) (ht : c.app.isTerminated = false) :
      RunStep c { c with
        app := { c.app with
          docState := pageUpdate c.totalPages ⟨i, text, img, dur⟩ c.app.docState }
        pending := c.pending.erase i
        results := c.results ++ [⟨i, text, img, dur⟩] }
  | drop (c : Config) (i : Nat) (hp : i ∈ c.pending) :
      RunStep c { c with pending := c.pending.erase i }
  | cancel (c : Config) (hs : c.app.docState.status = .processing) :
      RunStep c { c with app := stopExtraction c.app }
  | errStep (c : Config) (msg : String) (hs : c.app.docState.status ≠ .completed) :
      RunStep c { c with app := applyError msg c.app }
  | complete (c : Config) (dur : Nat)
      (hp : c.pending = []) (ht : c.app.isTerminated = false) :
      RunStep c { c with app := { c.app with
        docState := { c.app.docState with
          pages := sortPages c.results
          fullText := String.intercalate separator ((sortPages c.results).map OCRPage.extractedText)
          status := .completed
          progress := 100
          totalDurationMs := some dur } } }

/-- Reachability along run events. -/
def ReachableRun : Config → Config → Prop := Relation.ReflTransGen RunStep

/-!
Scheduler trace model for the concurrency-bound claim: the observable
dispatch/settle events generated by the loop of `App.tsx` lines 132-137.
Each iteration dispatches the whole batch at once (`batch.map(num =>
processPage(num))`) and then suspends on `await Promise.all` until every task
of the batch has settled; `σ` gives the completion (settle) order of each
batch.
-/

/-- A scheduler event: a page task starts, or it settles (resolves or
rejects). -/
inductive SchedEvent
  | dispatch (i : Nat)
  | settle (i : Nat)
deriving DecidableEq

/-- Is the event a dispatch? -/
def SchedEvent.isDispatch : SchedEvent → Bool
  | .dispatch _ => true
  | .settle _ => false

/-- Is the event a settle? -/
def SchedEvent.isSettle : SchedEvent → Bool
  | .dispatch _ => false
  | .settle _ => true

/-- Events of one loop iteration: the whole batch is dispatched concurrently,
then all its tasks settle (in completion order `σ b`) before the iteration
ends. -/
def chunkTrace (σ : List Nat → List Nat) (b : List Nat) : List SchedEvent :=
  b.map SchedEvent.dispatch ++ (σ b).map SchedEvent.settle

/-- The full event trace of an uncancelled run over `T` pages with
concurrency cap `K`. -/
def schedTrace (K T : Nat) (σ : List Nat → List Nat) : List SchedEvent :=
  ((chunksOf K (List.range' 1 T)).map (chunkTrace σ)).flatten

/-- Number of tasks outstanding (dispatched but not settled) after a list of
events. -/
def outstanding (evs : List SchedEvent) : Nat :=
  evs.countP SchedEvent.isDispatch - evs.countP SchedEvent.isSettle

/-- `IsPre p l` iff `p` is an initial segment of `l` (the history of events at
some instant). -/
def IsPre {α : Type} (p l : List α) : Prop := ∃ t, p ++ t = l

/-! Basic facts about the sorting and rounding helpers. -/

/-- Sorting permutes the input. -/
theorem sortPages_perm (l : List OCRPage) : List.Perm (sortPages l) l :=
  List.perm_insertionSort pageLe l

/-- Sorting preserves length. -/
theorem sortPages_length (l : List OCRPage) : (sortPages l).length = l.length :=
  List.length_insertionSort pageLe l

/-- The output of `sortPages` is sorted by `pageNumber`. -/
theorem sortPages_sorted (l : List OCRPage) : List.Sorted pageLe (sortPages l) :=
  List.sorted_insertionSort pageLe l

/-- Sorting a sorted list is the identity. -/
theorem sortPages_eq_of_sorted {l : List OCRPage} (h : List.Sorted pageLe l) :
    sortPages l = l :=
  h.insertionSort_eq

/-- A weakly sorted page list with pairwise distinct keys is strictly sorted. -/
theorem pairwise_lt_of_sorted_nodup {l : List OCRPage} (hs : List.Sorted pageLe l)
    (hn : (keysOf l).Nodup) :
    List.Pairwise (fun a b => a.pageNumber < b.pageNumber) l := by
  have hne : List.Pairwise (fun a b : OCRPage => a.pageNumber ≠ b.pageNumber) l := by
    simpa [keysOf, List.Nodup, List.pairwise_map] using hn
  exact (hs.and hne).imp fun h => Nat.lt_of_le_of_ne h.1 h.2

/-- Sorting a page list with pairwise distinct keys yields a strictly sorted
list. -/
theorem pairwise_lt_sortPages {l : List OCRPage} (hn : (keysOf l).Nodup) :
    List.Pairwise (fun a b => a.pageNumber < b.pageNumber) (sortPages l) := by
  refine pairwise_lt_of_sorted_nodup (sortPages_sorted l) ?_
  have hperm : List.Perm (keysOf (sortPages l)) (keysOf l) := (sortPages_perm l).map _
  exact hperm.nodup_iff.mpr hn

/-- Keys after sorting are a permutation of the original keys. -/
theorem keysOf_sortPages_perm (l : List OCRPage) : List.Perm (keysOf (sortPages l)) (keysOf l) :=
  (sortPages_perm l).map _

/-- `Math.round(0 / T * 100) = 0`. -/
theorem jsRound_zero (T : Nat) : jsRound 0 T = 0 := by
  unfold jsRound
  match T with
  | 0 => rfl
  | T + 1 => exact Nat.div_eq_of_lt (by omega)

/-- `Math.round(m / T * 100)` is monotone in the number of completed pages. -/
theorem jsRound_le_succ (m T : Nat) : jsRound m T ≤ jsRound (m + 1) T :=
  Nat.div_le_div_right (by omega)

/-! Concrete reachable configurations used by several claims: the run over `T`
pages in which pages `1..m` have settled successfully in ascending order. -/

/-- A concrete successful page. -/
def mkPage (i : Nat) : OCRPage := ⟨i, "x", "img", 0⟩

/-- Pages `1..m`, in ascending order. -/
def pagesUpTo (m : Nat) : List OCRPage := (List.range' 1 m).map mkPage

/-- `pagesUpTo` grows by one page at the top. -/
theorem pagesUpTo_concat (m : Nat) :
    pagesUpTo (m + 1) = pagesUpTo m ++ [mkPage (m + 1)] := by
  unfold pagesUpTo
  rw [List.range'_1_concat]
  simp [Nat.add_comm]

/-- `pagesUpTo` is sorted. -/
theorem pagesUpTo_sorted (m : Nat) : List.Sorted pageLe (pagesUpTo m) := by
  unfold pagesUpTo List.Sorted
  rw [List.pairwise_map]
  exact (List.pairwise_lt_range' 1 m).imp fun h => Nat.le_of_lt h

/-- The configuration of a run over `T` pages after pages `1..m` settled
successfully, in ascending order. -/
def cfgAt (T m : Nat) : Config :=
  { app := { docState := { fileName := "doc.pdf", pages := pagesUpTo m, fullText := "",
                           status := .processing, progress := jsRound m T,
                           totalDurationMs := none, startTime := some 0 }
             apiError := none
             isTerminated := false }
    totalPages := T
    pending := List.range' (m + 1) (T - m)
    results := pagesUpTo m }

/-- Before any page settles, the run is at its start configuration. -/
theorem cfgAt_zero (T : Nat) : cfgAt T 0 = startConfig "doc.pdf" 0 T := by
  simp [cfgAt, startConfig, handleFileUploadReset, pagesUpTo, jsRound_zero]

/-- Settling page `m+1` advances `cfgAt T m` to `cfgAt T (m+1)`. -/
theorem cfgAt_step {T m : Nat} (h : m < T) : RunStep (cfgAt T m) (cfgAt T (m + 1)) := by
  have hpend : (cfgAt T m).pending = (m + 1) :: List.range' (m + 2) (T - (m + 1)) := by
    show List.range' (m + 1) (T - m) = _
    have : T - m = (T - (m + 1)) + 1 := by omega
    rw [this, List.range'_succ]
  have hp : (m + 1) ∈ (cfgAt T m).pending := by rw [hpend]; exact List.mem_cons_self _ _
  have hstep := RunStep.settle (cfgAt T m) (m + 1) "x" "img" 0 hp rfl
  have hsorted : List.Sorted pageLe (pagesUpTo m ++ [mkPage (m + 1)]) := by
    rw [← pagesUpTo_concat]; exact pagesUpTo_sorted (m + 1)
  have hpages : sortPages ((cfgAt T m).app.docState.pages ++ [⟨m + 1, "x", "img", 0⟩]) =
      pagesUpTo (m + 1) := by
    show sortPages (pagesUpTo m ++ [mkPage (m + 1)]) = _
    rw [sortPages_eq_of_sorted hsorted, ← pagesUpTo_concat]
  have hlen : (pagesUpTo (m + 1)).length = m + 1 := by
    simp [pagesUpTo]
  have htarget : ({ cfgAt T m with
      app := { (cfgAt T m).app with
        docState := pageUpdate (cfgAt T m).totalPages ⟨m + 1, "x", "img", 0⟩
          (cfgAt T m).app.docState }
      pending := (cfgAt T m).pending.erase (m + 1)
      results := (cfgAt T m).results ++ [⟨m + 1, "x", "img", 0⟩] } : Config) =
      cfgAt T (m + 1) := by
    have herase : (cfgAt T m).pending.erase (m + 1) = List.range' (m + 2) (T - (m + 1)) := by
      rw [hpend, List.erase_cons_head]
    refine Config.mk.injEq .. ▸ ⟨?_, rfl, herase, ?_⟩
    · show ({ (cfgAt T m).app with
        docState := pageUpdate T ⟨m + 1, "x", "img", 0⟩ (cfgAt T m).app.docState } : AppState) =
        (cfgAt T (m + 1)).app
      unfold pageUpdate
      simp only [hpages, hlen]
      rfl
    · show (cfgAt T m).results ++ [⟨m + 1, "x", "img", 0⟩] = pagesUpTo (m + 1)
      rw [pagesUpTo_concat]; rfl
  exact htarget ▸ hstep

/-- The configuration with pages `1..m` settled is reachable. -/
theorem cfgAt_reachable {T m : Nat} (h : m ≤ T) :
    ReachableRun (startConfig "doc.pdf" 0 T) (cfgAt T m) := by
  induction m with
  | zero => rw [← cfgAt_zero]; exact Relation.ReflTransGen.refl
  | succ n ih =>
    exact Relation.ReflTransGen.tail (ih (by omega)) (cfgAt_step (by omega))

/-! The run invariant and its preservation. -/

/-- Invariant maintained by every mutation event of a run: pending tasks are
distinct and disjoint from what already settled, `pages` is always sorted with
distinct keys, `progress` tracks `Math.round(100 * |pages| / totalPages)`
while processing, `fullText` is only ever populated at `completed`, and a
completed state carries `progress` 100 with the joined text. -/
structure RunInv (cfg : Config) : Prop where
  pendingNodup : cfg.pending.Nodup
  pagesSorted : List.Sorted pageLe cfg.app.docState.pages
  pagesKeysNodup : (keysOf cfg.app.docState.pages).Nodup
  pagesNotPending : ∀ p ∈ cfg.app.docState.pages, p.pageNumber ∉ cfg.pending
  resultsKeysNodup : (keysOf cfg.results).Nodup
  resultsNotPending : ∀ p ∈ cfg.results, p.pageNumber ∉ cfg.pending
  progressEq : cfg.app.docState.status = Status.processing →
    cfg.app.docState.progress = jsRound cfg.app.docState.pages.length cfg.totalPages
  fullTextEmpty : cfg.app.docState.status ≠ Status.completed → cfg.app.docState.fullText = ""
  completedProps : cfg.app.docState.status = Status.completed →
    cfg.app.docState.progress = 100 ∧ cfg.pending = [] ∧
    cfg.app.docState.fullText =
      String.intercalate separator (cfg.app.docState.pages.map OCRPage.extractedText)

/-- The invariant holds at the start of a run. -/
theorem Inv_start (f : String) (t0 T : Nat) : RunInv (startConfig f t0 T) := by
  refine ⟨List.nodup_range' 1 T, List.sorted_nil, List.nodup_nil, ?_, List.nodup_nil, ?_,
    ?_, fun _ => rfl, ?_⟩
  · intro p hp; exact absurd hp (List.not_mem_nil p)
  · intro p hp; exact absurd hp (List.not_mem_nil p)
  · intro _; exact (jsRound_zero T).symm
  · intro h; exact Status.noConfusion h

/-- Appending a page with a fresh key keeps the key list duplicate-free. -/
theorem keys_append_nodup {l : List OCRPage} {p : OCRPage} (hl : (keysOf l).Nodup)
    (hp : p.pageNumber ∉ keysOf l) : (keysOf (l ++ [p])).Nodup := by
  have : keysOf (l ++ [p]) = keysOf l ++ [p.pageNumber] := by simp [keysOf]
  rw [this, List.nodup_append]
  refine ⟨hl, List.nodup_singleton _, ?_⟩
  intro x hx hmem
  rw [List.mem_singleton] at hmem
  exact hp (hmem ▸ hx)

/-- A page already in the aggregate has a key distinct from a pending index. -/
theorem key_ne_of_notPending {l : List OCRPage} {pending : List Nat} {i : Nat}
    (hnp : ∀ p ∈ l, p.pageNumber ∉ pending) (hi : i ∈ pending) : i ∉ keysOf l := by
  intro hmem
  obtain ⟨q, hq, hqi⟩ := List.mem_map.mp hmem
  exact hnp q hq (hqi ▸ hi)

/-- Every mutation event preserves the invariant. -/
theorem Inv_step {c c' : Config} (h : RunStep c c') (hI : RunInv c) : RunInv c' := by
  cases h with
  | settle i text img dur hp ht =>
    have hiPages : i ∉ keysOf c.app.docState.pages :=
      key_ne_of_notPending hI.pagesNotPending hp
    have hiResults : i ∉ keysOf c.results :=
      key_ne_of_notPending hI.resultsNotPending hp
    have hNotInErase : ∀ (n : Nat), n ∉ c.pending → n ∉ c.pending.erase i :=
      fun n hn hmem => hn (List.mem_of_mem_erase hmem)
    refine ⟨List.Nodup.erase i hI.pendingNodup, sortPages_sorted _, ?_, ?_, ?_, ?_, ?_, ?_, ?_⟩
    · exact (keysOf_sortPages_perm _).nodup_iff.mpr (keys_append_nodup hI.pagesKeysNodup hiPages)
    · intro q hq
      rcases List.mem_append.mp ((sortPages_perm _).mem_iff.mp hq) with hq | hq
      · exact hNotInErase q.pageNumber (hI.pagesNotPending q hq)
      · rw [List.mem_singleton] at hq
        subst hq
        intro hmem
        exact ((List.Nodup.mem_erase_iff hI.pendingNodup).mp hmem).1 rfl
    · exact keys_append_nodup hI.resultsKeysNodup hiResults
    · intro q hq
      rcases List.mem_append.mp hq with hq | hq
      · exact hNotInErase q.pageNumber (hI.resultsNotPending q hq)
      · rw [List.mem_singleton] at hq
        subst hq
        intro hmem
        exact ((List.Nodup.mem_erase_iff hI.pendingNodup).mp hmem).1 rfl
    · intro _; rfl
    · intro hne; exact hI.fullTextEmpty hne
    · intro hcomp
      obtain ⟨-, hpend, -⟩ := hI.completedProps hcomp
      exact absurd (hpend ▸ hp) (List.not_mem_nil i)
  | drop i hp =>
    have hNotInErase : ∀ (n : Nat), n ∉ c.pending → n ∉ c.pending.erase i :=
      fun n hn hmem => hn (List.mem_of_mem_erase hmem)
    refine ⟨List.Nodup.erase i hI.pendingNodup, hI.pagesSorted, hI.pagesKeysNodup, ?_,
      hI.resultsKeysNodup, ?_, hI.progressEq, hI.fullTextEmpty, ?_⟩
    · exact fun q hq => hNotInErase q.pageNumber (hI.pagesNotPending q hq)
    · exact fun q hq => hNotInErase q.pageNumber (hI.resultsNotPending q hq)
    · intro hcomp
      obtain ⟨h1, hpend, h3⟩ := hI.completedProps hcomp
      exact ⟨h1, by rw [hpend]; rfl, h3⟩
  | cancel hs =>
    refine ⟨hI.pendingNodup, hI.pagesSorted, hI.pagesKeysNodup, hI.pagesNotPending,
      hI.resultsKeysNodup, hI.resultsNotPending, ?_, ?_, ?_⟩
    · intro hidle; exact Status.noConfusion hidle
    · intro _; exact hI.fullTextEmpty (by rw [hs]; exact fun h => Status.noConfusion h)
    · intro hidle; exact Status.noConfusion hidle
  | errStep msg hs =>
    refine ⟨hI.pendingNodup, hI.pagesSorted, hI.pagesKeysNodup, hI.pagesNotPending,
      hI.resultsKeysNodup, hI.resultsNotPending, ?_, ?_, ?_⟩
    · intro herr; exact Status.noConfusion herr
    · intro _; exact hI.fullTextEmpty hs
    · intro herr; exact Status.noConfusion herr
  | complete dur hpend ht =>
    refine ⟨hI.pendingNodup, sortPages_sorted _, ?_, ?_, hI.resultsKeysNodup, ?_, ?_, ?_, ?_⟩
    · exact (keysOf_sortPages_perm _).nodup_iff.mpr hI.resultsKeysNodup
    · intro q _; rw [hpend]; exact List.not_mem_nil _
    · intro q _; rw [hpend]; exact List.not_mem_nil _
    · intro hcomp; exact Status.noConfusion hcomp
    · intro hne; exact absurd rfl hne
    · intro _; exact ⟨rfl, hpend, rfl⟩

/-- The invariant holds in every reachable configuration. -/
theorem Inv_reachable {s c : Config} (h : ReachableRun s c) (hs : RunInv s) : RunInv c := by
  induction h with
  | refl => exact hs
  | tail _ hstep ih => exact Inv_step hstep ih

/-- Mutation events never change the run's page total. -/
theorem RunStep_totalPages {c c' : Config} (h : RunStep c c') :
    c'.totalPages = c.totalPages := by
  cases h <;> rfl

/-- Reachability never changes the run's page total. -/
theorem ReachableRun_totalPages {s c : Config} (h : ReachableRun s c) :
    c.totalPages = s.totalPages := by
  induction h with
  | refl => rfl
  | tail _ hstep ih => rw [RunStep_totalPages hstep, ih]

/-- A run never re-enters `processing`: if the target of a step is processing,
so was the source. -/
theorem RunStep_status_back {c c' : Config} (h : RunStep c c')
    (hs : c'.app.docState.status = Status.processing) :
    c.app.docState.status = Status.processing := by
  cases h with
  | settle i text img dur hp ht => exact hs
  | drop i hp => exact hs
  | cancel hs' => exact absurd hs (fun hcontra => Status.noConfusion hcontra)
  | errStep msg hs' => exact absurd hs (fun hcontra => Status.noConfusion hcontra)
  | complete dur hpend ht => exact absurd hs (fun hcontra => Status.noConfusion hcontra)

/-- A single mutation event never decreases `progress` while the run stays in
`processing`. -/
theorem RunStep_progress_mono {c c' : Config} (h : RunStep c c') (hI : RunInv c)
    (hs' : c'.app.docState.status = Status.processing) :
    c.app.docState.progress ≤ c'.app.docState.progress := by
  cases h with
  | settle i text img dur hp ht =>
    have hsc : c.app.docState.status = Status.processing := hs'
    have hlen : (sortPages (c.app.docState.pages ++ [⟨i, text, img, dur⟩])).length
        = c.app.docState.pages.length + 1 := by
      rw [sortPages_length, List.length_append, List.length_singleton]
    show c.app.docState.progress ≤
      jsRound (sortPages (c.app.docState.pages ++ [⟨i, text, img, dur⟩])).length c.totalPages
    rw [hlen, hI.progressEq hsc]
    exact jsRound_le_succ _ _
  | drop i hp => exact Nat.le_refl _
  | cancel hs0 => exact absurd hs' (fun hcontra => Status.noConfusion hcontra)
  | errStep msg hs0 => exact absurd hs' (fun hcontra => Status.noConfusion hcontra)
  | complete dur hpend ht => exact absurd hs' (fun hcontra => Status.noConfusion hcontra)

/-- Along a run, `progress` is non-decreasing for as long as the run stays in
`processing`. -/
theorem ReachableRun_progress_mono {s c c' : Config} (hreach : ReachableRun s c)
    (hIs : RunInv s) (h : ReachableRun c c')
    (hs' : c'.app.docState.status = Status.processing) :
    c.app.docState.progress ≤ c'.app.docState.progress := by
  induction h with
  | refl => exact Nat.le_refl _
  | tail hcb hstep ih =>
    exact Nat.le_trans (ih (RunStep_status_back hstep hs'))
      (RunStep_progress_mono hstep
        (Inv_reachable (Relation.ReflTransGen.trans hreach hcb) hIs) hs')

/-! Scheduler lemmas: chunking, prefixes of the event trace, the outstanding
bound, and the chunk barrier. -/

/-- The chunks concatenate back to the input: the loop visits every page
exactly once, in order. -/
theorem chunksOf_flatten (K : Nat) : ∀ l : List Nat, (chunksOf K l).flatten = l
  | [] => by rfl
  | a :: l => by
    rw [chunksOf_cons]
    simp only [List.flatten_cons]
    rw [chunksOf_flatten K (l.drop (K - 1))]
    rw [List.cons_append, List.take_append_drop]
termination_by l => l.length
decreasing_by simp only [List.length_drop, List.length_cons]; omega

/-- Every chunk has at most `K` elements. -/
theorem chunksOf_length_le {K : Nat} (hK : 0 < K) :
    ∀ l : List Nat, ∀ c ∈ chunksOf K l, c.length ≤ K
  | [] => by intro c hc; exact absurd hc (List.not_mem_nil c)
  | a :: l => by
    rw [chunksOf_cons]
    intro c hc
    rcases List.mem_cons.mp hc with hc | hc
    · subst hc
      simp only [List.length_cons, List.length_take]
      have := Nat.min_le_left (K - 1) l.length
      omega
    · exact chunksOf_length_le hK (l.drop (K - 1)) c hc
termination_by l => l.length
decreasing_by simp only [List.length_drop, List.length_cons]; omega

/-- A history is never longer than the full trace. -/
theorem isPre_length_le {α : Type} {p l : List α} (h : IsPre p l) : p.length ≤ l.length := by
  obtain ⟨t, rfl⟩ := h
  simp

/-- Events of a history are events of the trace. -/
theorem mem_of_isPre {α : Type} {p l : List α} (h : IsPre p l) {a : α} (ha : a ∈ p) :
    a ∈ l := by
  obtain ⟨t, rfl⟩ := h
  exact List.mem_append.mpr (Or.inl ha)

/-- A history of a concatenated trace either stays within the first part or
covers it entirely. -/
theorem isPre_append_cases {α : Type} {p xs ys : List α} (h : IsPre p (xs ++ ys)) :
    IsPre p xs ∨ ∃ q, p = xs ++ q ∧ IsPre q ys := by
  induction xs generalizing p with
  | nil =>
    right
    exact ⟨p, rfl, h⟩
  | cons x xs ih =>
    cases p with
    | nil => left; exact ⟨x :: xs, rfl⟩
    | cons b p' =>
      obtain ⟨t, ht⟩ := h
      rw [List.cons_append, List.cons_append] at ht
      injection ht with hb ht'
      subst hb
      rcases ih ⟨t, ht'⟩ with hpre | ⟨q, hq, hqpre⟩
      · left
        obtain ⟨t', ht''⟩ := hpre
        exact ⟨t', by rw [List.cons_append, ht'']⟩
      · right
        exact ⟨q, by rw [hq, List.cons_append], hqpre⟩

/-- Dispatch events in a batch of dispatches: one per page. -/
theorem countD_map_dispatch (c : List Nat) :
    (c.map SchedEvent.dispatch).countP SchedEvent.isDispatch = c.length := by
  rw [List.countP_map]
  simp [Function.comp, SchedEvent.isDispatch]

/-- No settle events among the dispatches. -/
theorem countS_map_dispatch (c : List Nat) :
    (c.map SchedEvent.dispatch).countP SchedEvent.isSettle = 0 := by
  rw [List.countP_map]
  simp [Function.comp, SchedEvent.isSettle]

/-- No dispatch events among the settles. -/
theorem countD_map_settle (c : List Nat) :
    (c.map SchedEvent.settle).countP SchedEvent.isDispatch = 0 := by
  rw [List.countP_map]
  simp [Function.comp, SchedEvent.isDispatch]

/-- Settle events in a batch of settles: one per page. -/
theorem countS_map_settle (c : List Nat) :
    (c.map SchedEvent.settle).countP SchedEvent.isSettle = c.length := by
  rw [List.countP_map]
  simp [Function.comp, SchedEvent.isSettle]

/-- A history of the settle phase contains no dispatches. -/
theorem countD_eq_zero_of_isPre_settles {q : List SchedEvent} {c : List Nat}
    (h : IsPre q (c.map SchedEvent.settle)) :
    q.countP SchedEvent.isDispatch = 0 := by
  rw [List.countP_eq_zero]
  intro e he
  obtain ⟨i, -, rfl⟩ := List.mem_map.mp (mem_of_isPre h he)
  simp [SchedEvent.isDispatch]

/-- Within one loop iteration, at most `|c|` tasks are ever outstanding. -/
theorem outstanding_chunkTrace_le {σ : List Nat → List Nat} {c : List Nat}
    {p : List SchedEvent} (h : IsPre p (chunkTrace σ c)) : outstanding p ≤ c.length := by
  unfold chunkTrace at h
  rcases isPre_append_cases h with hpre | ⟨q, rfl, hq⟩
  · have h1 : p.countP SchedEvent.isDispatch ≤ p.length := List.countP_le_length _
    have h2 : p.length ≤ c.length := by
      have := isPre_length_le hpre
      simpa using this
    unfold outstanding
    omega
  · unfold outstanding
    rw [List.countP_append, List.countP_append, countD_map_dispatch,
      countD_eq_zero_of_isPre_settles hq, countS_map_dispatch]
    omega

/-- Dispatch events of one loop iteration over all its counted events. -/
theorem countD_chunkTrace (σ : List Nat → List Nat) (c : List Nat) :
    (chunkTrace σ c).countP SchedEvent.isDispatch = c.length := by
  unfold chunkTrace
  rw [List.countP_append, countD_map_dispatch, countD_map_settle]
  omega

/-- Settle events of one loop iteration, given the completion order is a
rearrangement of the batch. -/
theorem countS_chunkTrace {σ : List Nat → List Nat} {c : List Nat}
    (hσ : (σ c).length = c.length) :
    (chunkTrace σ c).countP SchedEvent.isSettle = c.length := by
  unfold chunkTrace
  rw [List.countP_append, countS_map_dispatch, countS_map_settle, hσ]
  omega

/-- The outstanding-task bound over an arbitrary chunk list. -/
theorem outstanding_le_of_chunks {K : Nat} {σ : List Nat → List Nat}
    (hσ : ∀ c, (σ c).length = c.length) :
    ∀ (cs : List (List Nat)), (∀ c ∈ cs, c.length ≤ K) →
    ∀ p, IsPre p ((cs.map (chunkTrace σ)).flatten) → outstanding p ≤ K := by
  intro cs
  induction cs with
  | nil =>
    intro _ p hp
    obtain ⟨t, ht⟩ := hp
    simp only [List.map_nil, List.flatten_nil] at ht
    obtain ⟨rfl, -⟩ := List.append_eq_nil.mp ht
    simp [outstanding]
  | cons c cs ih =>
    intro hlen p hp
    simp only [List.map_cons, List.flatten_cons] at hp
    rcases isPre_append_cases hp with hpre | ⟨q, rfl, hq⟩
    · exact Nat.le_trans (outstanding_chunkTrace_le hpre) (hlen c (List.mem_cons_self c cs))
    · have hqle := ih (fun c' hc' => hlen c' (List.mem_cons_of_mem c hc')) q hq
      unfold outstanding at hqle ⊢
      rw [List.countP_append, List.countP_append, countD_chunkTrace, countS_chunkTrace (hσ c)]
      omega

/-- A dispatch event of a loop iteration names a page of its batch. -/
theorem dispatch_mem_chunkTrace {σ : List Nat → List Nat} {c : List Nat} {j : Nat}
    (h : SchedEvent.dispatch j ∈ chunkTrace σ c) : j ∈ c := by
  unfold chunkTrace at h
  rcases List.mem_append.mp h with h | h
  · obtain ⟨i, hi, hij⟩ := List.mem_map.mp h
    injection hij with h'
    exact h' ▸ hi
  · obtain ⟨i, -, hij⟩ := List.mem_map.mp h
    exact SchedEvent.noConfusion hij

/-- Every page of a batch settles within its own loop iteration. -/
theorem settle_mem_chunkTrace {σ : List Nat → List Nat} {c : List Nat} {i : Nat}
    (hσ : List.Perm (σ c) c) (hi : i ∈ c) :
    SchedEvent.settle i ∈ chunkTrace σ c := by
  unfold chunkTrace
  exact List.mem_append.mpr (Or.inr (List.mem_map.mpr ⟨i, hσ.mem_iff.mpr hi, rfl⟩))

/-- A member of the `b`-th chunk is a member of the concatenation. -/
theorem mem_getD_flatten {cs : List (List Nat)} {b j : Nat}
    (h : j ∈ cs.getD b []) : j ∈ cs.flatten := by
  induction cs generalizing b with
  | nil => simp [List.getD] at h
  | cons c cs ih =>
    cases b with
    | zero =>
      rw [List.flatten_cons]
      exact List.mem_append.mpr (Or.inl (by simpa using h))
    | succ b' =>
      rw [List.flatten_cons]
      exact List.mem_append.mpr (Or.inr (ih (by simpa using h)))

/-- Chunk barrier: if a history of the trace already contains the dispatch of
a page of a later chunk, it contains the settle of every page of every
earlier chunk. -/
theorem settles_before_dispatch {σ : List Nat → List Nat} (hσ : ∀ c, List.Perm (σ c) c) :
    ∀ (cs : List (List Nat)), (cs.flatten).Nodup →
    ∀ p, IsPre p ((cs.map (chunkTrace σ)).flatten) →
    ∀ a b, a < b → ∀ j ∈ cs.getD b [], SchedEvent.dispatch j ∈ p →
    ∀ i ∈ cs.getD a [], SchedEvent.settle i ∈ p := by
  intro cs
  induction cs with
  | nil =>
    intro _ p hp a b hab j hj hdisp i hi
    simp [List.getD] at hj
  | cons c cs ih =>
    intro hnd p hp a b hab j hj hdisp i hi
    simp only [List.map_cons, List.flatten_cons] at hp
    rw [List.flatten_cons] at hnd
    have hnd' : (cs.flatten).Nodup := List.Nodup.of_append_right hnd
    have hdisj : List.Disjoint c cs.flatten := List.disjoint_of_nodup_append hnd
    obtain ⟨b', rfl⟩ : ∃ b', b = b' + 1 := ⟨b - 1, by omega⟩
    have hjb : j ∈ cs.getD b' [] := by simpa using hj
    have hjc : j ∉ c := fun hjc => hdisj hjc (mem_getD_flatten hjb)
    rcases isPre_append_cases hp with hpre | ⟨q, rfl, hq⟩
    · exact absurd (dispatch_mem_chunkTrace (mem_of_isPre hpre hdisp)) hjc
    · cases a with
      | zero =>
        have hic : i ∈ c := by simpa using hi
        exact List.mem_append.mpr (Or.inl (settle_mem_chunkTrace (hσ c) hic))
      | succ a' =>
        have hia : i ∈ cs.getD a' [] := by simpa using hi
        have hdq : SchedEvent.dispatch j ∈ q := by
          rcases List.mem_append.mp hdisp with hmem | hmem
          · exact absurd (dispatch_mem_chunkTrace hmem) hjc
          · exact hmem
        exact List.mem_append.mpr
          (Or.inr (ih hnd' q hq a' b' (by omega) j hjb hdq i hia))

/-! Lemmas about the deterministic uncancelled run. -/

/-- Environment under which a page task surely succeeds: rasterization works,
the 2D context is available, and the service returns nonempty text. -/
def envOk (e : PageEnv) : Prop :=
  e.getPageFail = none ∧ e.ctxOk = true ∧ e.renderFail = none ∧
  ∃ t, t ≠ "" ∧ e.resp = ServiceResp.ok t

/-- The text delivered by a successful service response. -/
def respText (e : PageEnv) : String :=
  match e.resp with
  | .ok t => t
  | .fail _ => ""

/-- The page produced by a successful uncancelled page task. -/
def succPage (envs : Nat → PageEnv) (i : Nat) : OCRPage :=
  ⟨i, respText (envs i), (envs i).image, (envs i).ocrMs⟩

/-- A nonempty response under a present key passes `performOCR` verbatim. -/
theorem performOCR_ok {apiKey t : String} (hk : apiKey ≠ "") (ht : t ≠ "") :
    performOCR apiKey (ServiceResp.ok t) = Except.ok t := by
  unfold performOCR
  rw [if_neg hk]
  simp [ht]

/-- A page task with a healthy environment resolves to its page. -/
theorem processPage_ok {apiKey : String} {e : PageEnv} (hk : apiKey ≠ "") (he : envOk e)
    (i t0 : Nat) :
    processPage false false apiKey e i t0 =
      Except.ok (some ⟨i, respText e, e.image, e.ocrMs⟩) := by
  obtain ⟨hgp, hctx, hrf, t, htne, hresp⟩ := he
  simp only [processPage, hgp, hctx, hrf, hresp, performOCR_ok hk htne, if_true,
    Bool.false_eq_true, if_false]
  have hdur : t0 + e.rasterMs + e.ocrMs - (t0 + e.rasterMs) = e.ocrMs := by omega
  rw [hdur]
  have : respText e = t := by rw [respText, hresp]
  rw [this]

/-- One unfolding step of the batch loop. -/
theorem runChunks_cons (apiKey : String) (T : Nat) (envs : Nat → PageEnv)
    (b : List Nat) (bs : List (List Nat)) (st : AppState) (acc : List OCRPage) :
    runChunks apiKey T envs (b :: bs) st acc =
      if st.isTerminated then (st, acc, none)
      else
        match firstErr (b.map fun i => processPage false false apiKey (envs i) i 0) with
        | some msg =>
          (applySuccesses T st
            (oksBeforeErr (b.map fun i => processPage false false apiKey (envs i) i 0)),
           acc, some msg)
        | none =>
          runChunks apiKey T envs bs
            (applySuccesses T st (oksOf (b.map fun i => processPage false false apiKey (envs i) i 0)))
            (acc ++ oksOf (b.map fun i => processPage false false apiKey (envs i) i 0)) := rfl

/-- An all-resolved batch has no rejection. -/
theorem firstErr_map_ok {b : List Nat} {f : Nat → Except String (Option OCRPage)}
    (hf : ∀ i ∈ b, ∃ v, f i = Except.ok v) : firstErr (b.map f) = none := by
  induction b with
  | nil => rfl
  | cons x b ih =>
    obtain ⟨v, hv⟩ := hf x (List.mem_cons_self x b)
    rw [List.map_cons, hv]
    show firstErr (b.map f) = none
    exact ih fun i hi => hf i (List.mem_cons_of_mem x hi)

/-- The non-null results of an all-successful batch, in batch order. -/
theorem oksOf_map_ok {b : List Nat} {g : Nat → OCRPage} :
    oksOf (b.map fun i => Except.ok (some (g i))) = b.map g := by
  induction b with
  | nil => rfl
  | cons x b ih =>
    rw [List.map_cons, List.map_cons]
    show g x :: oksOf (b.map fun i => Except.ok (some (g i))) = g x :: b.map g
    rw [ih]

/-- If a batch has no rejection, no member is an error. -/
theorem firstErr_none_no_error : ∀ {l : List (Except String (Option OCRPage))},
    firstErr l = none → ∀ x ∈ l, ∀ m, x ≠ Except.error m := by
  intro l
  induction l with
  | nil => intro _ x hx; exact absurd hx (List.not_mem_nil x)
  | cons y l ih =>
    intro h x hx m
    cases y with
    | error m' => exact absurd h (by simp [firstErr])
    | ok v =>
      rcases List.mem_cons.mp hx with rfl | hx
      · exact fun hcontra => Except.noConfusion hcontra
      · exact ih (by simpa [firstErr] using h) x hx m

/-- The incremental success update never touches the cancellation flag, the
accumulated `fullText`, or the status. -/
theorem applyIncremental_fields (T : Nat) (st : AppState) (p : OCRPage) :
    (applyIncremental T st p).isTerminated = st.isTerminated ∧
    (applyIncremental T st p).docState.fullText = st.docState.fullText ∧
    (applyIncremental T st p).docState.status = st.docState.status ∧
    (applyIncremental T st p).apiError = st.apiError := by
  unfold applyIncremental
  by_cases h : st.isTerminated <;> simp [h, pageUpdate]

/-- Iterated incremental updates never touch flag, `fullText`, status or the
error banner. -/
theorem applySuccesses_fields (T : Nat) (ps : List OCRPage) (st : AppState) :
    (applySuccesses T st ps).isTerminated = st.isTerminated ∧
    (applySuccesses T st ps).docState.fullText = st.docState.fullText ∧
    (applySuccesses T st ps).docState.status = st.docState.status ∧
    (applySuccesses T st ps).apiError = st.apiError := by
  induction ps generalizing st with
  | nil => exact ⟨rfl, rfl, rfl, rfl⟩
  | cons p ps ih =>
    obtain ⟨h1, h2, h3, h4⟩ := ih (applyIncremental T st p)
    obtain ⟨g1, g2, g3, g4⟩ := applyIncremental_fields T st p
    exact ⟨h1.trans g1, h2.trans g2, h3.trans g3, h4.trans g4⟩

/-- The batch loop never touches the cancellation flag, the accumulated
`fullText`, or the status. -/
theorem runChunks_fields (apiKey : String) (T : Nat) (envs : Nat → PageEnv) :
    ∀ (cs : List (List Nat)) (st : AppState) (acc : List OCRPage),
    (runChunks apiKey T envs cs st acc).1.isTerminated = st.isTerminated ∧
    (runChunks apiKey T envs cs st acc).1.docState.fullText = st.docState.fullText ∧
    (runChunks apiKey T envs cs st acc).1.docState.status = st.docState.status := by
  intro cs
  induction cs with
  | nil => intro st acc; exact ⟨rfl, rfl, rfl⟩
  | cons b bs ih =>
    intro st acc
    rw [runChunks_cons]
    by_cases hterm : st.isTerminated
    · rw [if_pos hterm]; exact ⟨rfl, rfl, rfl⟩
    · rw [if_neg hterm]
      cases hfe : firstErr (b.map fun i => processPage false false apiKey (envs i) i 0) with
      | some msg =>
        obtain ⟨h1, h2, h3, -⟩ := applySuccesses_fields T
          (oksBeforeErr (b.map fun i => processPage false false apiKey (envs i) i 0)) st
        exact ⟨h1, h2, h3⟩
      | none =>
        obtain ⟨h1, h2, h3, -⟩ := applySuccesses_fields T
          (oksOf (b.map fun i => processPage false false apiKey (envs i) i 0)) st
        obtain ⟨g1, g2, g3⟩ := ih
          (applySuccesses T st (oksOf (b.map fun i => processPage false false apiKey (envs i) i 0)))
          (acc ++ oksOf (b.map fun i => processPage false false apiKey (envs i) i 0))
        exact ⟨g1.trans h1, g2.trans h2, g3.trans h3⟩

/-- With a present key and healthy environments everywhere, the batch loop
resolves with the pages of every index in order and no rejection. -/
theorem runChunks_all_ok (apiKey : String) (T : Nat) (envs : Nat → PageEnv)
    (hk : apiKey ≠ "") :
    ∀ (cs : List (List Nat)), (∀ i ∈ cs.flatten, envOk (envs i)) →
    ∀ (st : AppState) (acc : List OCRPage), st.isTerminated = false →
    (runChunks apiKey T envs cs st acc).2.1 = acc ++ (cs.flatten).map (succPage envs) ∧
    (runChunks apiKey T envs cs st acc).2.2 = none := by
  intro cs
  induction cs with
  | nil => intro _ st acc _; exact ⟨by simp [runChunks], rfl⟩
  | cons b bs ih =>
    intro henv st acc hst
    have houts : (b.map fun i => processPage false false apiKey (envs i) i 0)
        = b.map (fun i => Except.ok (some (succPage envs i))) := by
      refine List.map_congr_left fun i hi => ?_
      have : envOk (envs i) := henv i (by
        rw [List.flatten_cons]; exact List.mem_append.mpr (Or.inl hi))
      exact processPage_ok hk this i 0
    have hfe : firstErr (b.map fun i => processPage false false apiKey (envs i) i 0) = none := by
      rw [houts]
      exact firstErr_map_ok fun i _ => ⟨some (succPage envs i), rfl⟩
    have hoks : oksOf (b.map fun i => processPage false false apiKey (envs i) i 0)
        = b.map (succPage envs) := by
      rw [houts, oksOf_map_ok]
    rw [runChunks_cons, if_neg (by rw [hst]; exact Bool.false_ne_true)]
    rw [hfe]
    show (runChunks apiKey T envs bs _ _).2.1 = _ ∧ (runChunks apiKey T envs bs _ _).2.2 = none
    have hst' : (applySuccesses T st
        (oksOf (b.map fun i => processPage false false apiKey (envs i) i 0))).isTerminated
        = false := by
      obtain ⟨h1, -, -, -⟩ := applySuccesses_fields T
        (oksOf (b.map fun i => processPage false false apiKey (envs i) i 0)) st
      rw [h1, hst]
    have henv' : ∀ i ∈ bs.flatten, envOk (envs i) := fun i hi => henv i (by
      rw [List.flatten_cons]; exact List.mem_append.mpr (Or.inr hi))
    obtain ⟨ha, hb⟩ := ih henv' _ _ hst'
    refine ⟨?_, hb⟩
    rw [ha, hoks, List.flatten_cons, List.map_append, List.append_assoc]

/-- A failing page among the dispatched indices forces the batch loop to
reject. -/
theorem runChunks_err (apiKey : String) (T : Nat) (envs : Nat → PageEnv) :
    ∀ (cs : List (List Nat)) (st : AppState) (acc : List OCRPage),
    st.isTerminated = false →
    (∃ i ∈ cs.flatten, ∃ msg, processPage false false apiKey (envs i) i 0 = Except.error msg) →
    ∃ m, (runChunks apiKey T envs cs st acc).2.2 = some m := by
  intro cs
  induction cs with
  | nil =>
    intro st acc hst hex
    obtain ⟨i, hi, -⟩ := hex
    rw [List.flatten_nil] at hi
    exact absurd hi (List.not_mem_nil i)
  | cons b bs ih =>
    intro st acc hst hex
    rw [runChunks_cons, if_neg (by rw [hst]; exact Bool.false_ne_true)]
    cases hfe : firstErr (b.map fun i => processPage false false apiKey (envs i) i 0) with
    | some msg => exact ⟨msg, rfl⟩
    | none =>
      obtain ⟨i, hi, msg, hmsg⟩ := hex
      rw [List.flatten_cons] at hi
      rcases List.mem_append.mp hi with hi | hi
      · exact absurd hmsg (firstErr_none_no_error hfe _
          (List.mem_map.mpr ⟨i, hi, rfl⟩) msg)
      · have hst' : (applySuccesses T st
            (oksOf (b.map fun j => processPage false false apiKey (envs j) j 0))).isTerminated
            = false := by
          obtain ⟨h1, -, -, -⟩ := applySuccesses_fields T
            (oksOf (b.map fun j => processPage false false apiKey (envs j) j 0)) st
          rw [h1, hst]
        exact ih _ _ hst' ⟨i, hi, msg, hmsg⟩

/-- Unfolding of an upload with a successfully loaded PDF. -/
theorem handleFileUpload_none_eq (prior : AppState) (fileName : String) (t0 : Nat)
    (apiKey : String) (T : Nat) (envs : Nat → PageEnv) (tEnd : Nat) :
    handleFileUpload prior fileName t0 apiKey none T envs tEnd =
      match (runChunks apiKey T envs (chunksOf concurrencyLimit (List.range' 1 T))
          (handleFileUploadReset prior fileName t0) []).2.2 with
      | some msg => applyError msg (runChunks apiKey T envs
          (chunksOf concurrencyLimit (List.range' 1 T))
          (handleFileUploadReset prior fileName t0) []).1
      | none =>
        if (runChunks apiKey T envs (chunksOf concurrencyLimit (List.range' 1 T))
            (handleFileUploadReset prior fileName t0) []).1.isTerminated then
          (runChunks apiKey T envs (chunksOf concurrencyLimit (List.range' 1 T))
            (handleFileUploadReset prior fileName t0) []).1
        else
          { (runChunks apiKey T envs (chunksOf concurrencyLimit (List.range' 1 T))
              (handleFileUploadReset prior fileName t0) []).1 with
            docState := { (runChunks apiKey T envs (chunksOf concurrencyLimit (List.range' 1 T))
                (handleFileUploadReset prior fileName t0) []).1.docState with
              pages := sortPages (runChunks apiKey T envs
                (chunksOf concurrencyLimit (List.range' 1 T))
                (handleFileUploadReset prior fileName t0) []).2.1
              fullText := String.intercalate separator
                ((sortPages (runChunks apiKey T envs
                  (chunksOf concurrencyLimit (List.range' 1 T))
                  (handleFileUploadReset prior fileName t0) []).2.1).map OCRPage.extractedText)
              status := Status.completed
              progress := 100
              totalDurationMs := some (tEnd - t0) } } := rfl

/-- A failing page forces the whole run into the `catch`: the final status is
`error` and `fullText` was never populated. -/
theorem handleFileUpload_error_of_failing (prior : AppState) (fileName : String) (t0 : Nat)
    (apiKey : String) (T : Nat) (envs : Nat → PageEnv) (tEnd : Nat)
    (hex : ∃ i ∈ List.range' 1 T, ∃ msg,
      processPage false false apiKey (envs i) i 0 = Except.error msg) :
    (handleFileUpload prior fileName t0 apiKey none T envs tEnd).docState.status = Status.error ∧
    (handleFileUpload prior fileName t0 apiKey none T envs tEnd).docState.fullText = "" := by
  obtain ⟨m, hm⟩ := runChunks_err apiKey T envs
    (chunksOf concurrencyLimit (List.range' 1 T)) (handleFileUploadReset prior fileName t0) []
    rfl (by rw [chunksOf_flatten]; exact hex)
  obtain ⟨-, hft, -⟩ := runChunks_fields apiKey T envs
    (chunksOf concurrencyLimit (List.range' 1 T)) (handleFileUploadReset prior fileName t0) []
  rw [handleFileUpload_none_eq]
  simp only [hm]
  exact ⟨rfl, hft⟩

/-- Pages of an all-successful run, listed in page order, are sorted. -/
theorem succPage_sorted (envs : Nat → PageEnv) (T : Nat) :
    List.Sorted pageLe ((List.range' 1 T).map (succPage envs)) := by
  unfold List.Sorted
  rw [List.pairwise_map]
  exact (List.pairwise_lt_range' 1 T).imp fun h => Nat.le_of_lt h

/-- With a present key and healthy environments everywhere, the run completes
with exactly the pages `1..T` in ascending order. -/
theorem handleFileUpload_all_ok (prior : AppState) (fileName : String) (t0 : Nat)
    (apiKey : String) (T : Nat) (envs : Nat → PageEnv) (tEnd : Nat)
    (hk : apiKey ≠ "") (henv : ∀ i ∈ List.range' 1 T, envOk (envs i)) :
    (handleFileUpload prior fileName t0 apiKey none T envs tEnd).docState.status
        = Status.completed ∧
    (handleFileUpload prior fileName t0 apiKey none T envs tEnd).docState.pages
        = (List.range' 1 T).map (succPage envs) := by
  obtain ⟨h21, h22⟩ := runChunks_all_ok apiKey T envs hk
    (chunksOf concurrencyLimit (List.range' 1 T))
    (by rw [chunksOf_flatten]; exact henv) (handleFileUploadReset prior fileName t0) [] rfl
  obtain ⟨hterm, -, -⟩ := runChunks_fields apiKey T envs
    (chunksOf concurrencyLimit (List.range' 1 T)) (handleFileUploadReset prior fileName t0) []
  rw [chunksOf_flatten, List.nil_append] at h21
  rw [handleFileUpload_none_eq]
  simp only [h22, hterm, Bool.false_eq_true, if_false]
  refine ⟨rfl, ?_⟩
  show sortPages (runChunks apiKey T envs (chunksOf concurrencyLimit (List.range' 1 T))
      (handleFileUploadReset prior fileName t0) []).2.1 = _
  rw [h21, sortPages_eq_of_sorted (succPage_sorted envs T)]

/-! Concrete states and environments used by counterexamples and witnesses. -/

/-- An idle prior state. -/
def emptyApp : AppState := ⟨⟨"", [], "", .idle, 0, none, none⟩, none, false⟩

/-- Healthy page environments: everything succeeds with text "T". -/
def okEnvs : Nat → PageEnv := fun _ => ⟨none, 0, true, none, "img", ServiceResp.ok "T", 1⟩

/-- Environments for a 13-page run whose page 13 (alone in the second chunk)
is rate-limited while pages 1-12 succeed. -/
def cexEnvsC2 : Nat → PageEnv := fun i =>
  if i = 13 then ⟨none, 0, true, none, "img", ServiceResp.fail "429", 1⟩
  else ⟨none, 0, true, none, "img", ServiceResp.ok "T", 1⟩

/-- Environments whose 2D canvas context is unavailable (`getContext` returns
`null`), everything else healthy. -/
def cexEnvsC3 : Nat → PageEnv := fun _ => ⟨none, 0, false, none, "img", ServiceResp.ok "T", 1⟩

/-- Environments whose service responds with empty text. -/
def emptyTextEnvs : Nat → PageEnv := fun _ => ⟨none, 0, true, none, "img", ServiceResp.ok "", 1⟩

/-! Claim C1. -/

/-- C1 (counterexample): cancelling during Processing does NOT leave a state
with no pages populated.  In the run over one page, reachable by settling
page 1, `stopExtraction` moves to Idle but keeps the accumulated page in
`pages`, because line 53 spreads `...prev` and only overwrites `status` and
`progress`.  (Realizable: the page settles, then the user clicks the
terminate button.) -/
theorem claim_C1_counterexample :
    ReachableRun (startConfig "doc.pdf" 0 1) (cfgAt 1 1) ∧
    (cfgAt 1 1).app.docState.status = Status.processing ∧
    (stopExtraction (cfgAt 1 1).app).docState.status = Status.idle ∧
    (stopExtraction (cfgAt 1 1).app).docState.pages ≠ [] :=
  ⟨cfgAt_reachable (Nat.le_refl 1), rfl, rfl, by decide⟩

/-- C1 (amended): if cancel (`stopExtraction`) is invoked while the status is
Processing, the resulting state is Idle with `progress` 0 and `fullText`
still empty (it is never populated during Processing); the `pages`
accumulated so far remain in the state rather than being cleared; the
cancellation flag is set, and consequently any page task that resolves
successfully after the cancellation leaves the state unchanged: its guarded
update (`applyIncremental`) is a no-op, so it neither re-populates `pages`
nor moves the status away from Idle. -/
theorem claim_C1_cancellation (fileName : String) (t0 T : Nat) (cfg : Config)
    (hreach : ReachableRun (startConfig fileName t0 T) cfg)
    (hs : cfg.app.docState.status = Status.processing) :
    (stopExtraction cfg.app).docState.status = Status.idle ∧
    (stopExtraction cfg.app).docState.progress = 0 ∧
    (stopExtraction cfg.app).docState.fullText = "" ∧
    (stopExtraction cfg.app).docState.pages = cfg.app.docState.pages ∧
    (stopExtraction cfg.app).isTerminated = true ∧
    ∀ (T' : Nat) (p : OCRPage),
      applyIncremental T' (stopExtraction cfg.app) p = stopExtraction cfg.app := by
  have hI := Inv_reachable hreach (Inv_start fileName t0 T)
  refine ⟨rfl, rfl, ?_, rfl, rfl, ?_⟩
  · show cfg.app.docState.fullText = ""
    exact hI.fullTextEmpty (by rw [hs]; exact fun h => Status.noConfusion h)
  · intro T' p
    unfold applyIncremental
    exact if_pos rfl

/-- C1 witness: the amended theorem applied at the start of a one-page run. -/
theorem claim_C1_cancellation_witness :
    (stopExtraction (startConfig "doc.pdf" 0 1).app).docState.status = Status.idle ∧
    (stopExtraction (startConfig "doc.pdf" 0 1).app).docState.progress = 0 ∧
    (stopExtraction (startConfig "doc.pdf" 0 1).app).docState.fullText = "" ∧
    (stopExtraction (startConfig "doc.pdf" 0 1).app).docState.pages =
      (startConfig "doc.pdf" 0 1).app.docState.pages ∧
    (stopExtraction (startConfig "doc.pdf" 0 1).app).isTerminated = true ∧
    ∀ (T' : Nat) (p : OCRPage),
      applyIncremental T' (stopExtraction (startConfig "doc.pdf" 0 1).app) p =
        stopExtraction (startConfig "doc.pdf" 0 1).app :=
  claim_C1_cancellation "doc.pdf" 0 1 (startConfig "doc.pdf" 0 1)
    Relation.ReflTransGen.refl rfl

/-! Claim C2. -/

/-- C2 (counterexample): a true failure with `m = 12 < T = 13` pages already
succeeded ends in Error, but the accumulated pages are NOT discarded from the
state: the catch at lines 153-157 spreads `...prev` and only overwrites
`status`, so the 12 pages of the first chunk are still in `pages`.
(Realizable: chunk 1 fully settles before chunk 2 starts, then page 13 is
rate-limited.) -/
theorem claim_C2_counterexample :
    (handleFileUpload emptyApp "a.pdf" 0 "key" none 13 cexEnvsC2 50).docState.status
        = Status.error ∧
    (handleFileUpload emptyApp "a.pdf" 0 "key" none 13 cexEnvsC2 50).docState.pages.length
        = 12 ∧
    (handleFileUpload emptyApp "a.pdf" 0 "key" none 13 cexEnvsC2 50).docState.pages ≠ [] ∧
    (handleFileUpload emptyApp "a.pdf" 0 "key" none 13 cexEnvsC2 50).apiError
        = some "Rate limit exceeded. Please wait a moment." := by
  decide

/-- C2 (amended): if any page task fails with a true (non-cancellation)
failure, the run ends in status Error and never reaches Completed; `fullText`
is empty (it was never populated), so no completed document is exposed — but
the pages accumulated before the failure remain in the state's `pages` field
rather than being discarded. -/
theorem claim_C2_failure_atomicity (prior : AppState) (fileName : String) (t0 : Nat)
    (apiKey : String) (T : Nat) (envs : Nat → PageEnv) (tEnd : Nat)
    (hex : ∃ i ∈ List.range' 1 T, ∃ msg,
      processPage false false apiKey (envs i) i 0 = Except.error msg) :
    (handleFileUpload prior fileName t0 apiKey none T envs tEnd).docState.status
        = Status.error ∧
    (handleFileUpload prior fileName t0 apiKey none T envs tEnd).docState.fullText = "" ∧
    (handleFileUpload prior fileName t0 apiKey none T envs tEnd).docState.status
        ≠ Status.completed := by
  obtain ⟨h1, h2⟩ := handleFileUpload_error_of_failing prior fileName t0 apiKey T envs tEnd hex
  exact ⟨h1, h2, by rw [h1]; exact fun hc => Status.noConfusion hc⟩

/-- C2 witness: the amended theorem applied to the 13-page rate-limited run. -/
theorem claim_C2_failure_atomicity_witness :
    (handleFileUpload emptyApp "a.pdf" 0 "key" none 13 cexEnvsC2 50).docState.status
        = Status.error ∧
    (handleFileUpload emptyApp "a.pdf" 0 "key" none 13 cexEnvsC2 50).docState.fullText = "" ∧
    (handleFileUpload emptyApp "a.pdf" 0 "key" none 13 cexEnvsC2 50).docState.status
        ≠ Status.completed :=
  claim_C2_failure_atomicity emptyApp "a.pdf" 0 "key" 13 cexEnvsC2 50
    ⟨13, by decide, "Rate limit exceeded. Please wait a moment.", by decide⟩

/-! Claim C3. -/

/-- C3 (counterexample): a one-page run in which `canvas.getContext('2d')`
returns `null` reaches Completed without cancellation and without any
failure, yet its `pages` has 0 entries, not `T = 1`: `processPage` silently
returns `null` for such a page (line 124) and the result is filtered out
(line 136). -/
theorem claim_C3_counterexample :
    (handleFileUpload emptyApp "a.pdf" 0 "key" none 1 cexEnvsC3 9).docState.status
        = Status.completed ∧
    (handleFileUpload emptyApp "a.pdf" 0 "key" none 1 cexEnvsC3 9).docState.pages.length
        ≠ 1 := by
  decide

/-- C3 (amended): for every run over a `T`-page document with a present API
key whose every page rasterizes, obtains its 2D canvas context, and extracts
nonempty text (so the run reaches Completed without cancellation or failure
and no page is silently skipped), the final `pages` has exactly `T` entries
and `pages[k].pageNumber = k + 1` for every index `k`.  Completion order
cannot influence this: `Promise.all` resolves in dispatch order and the final
update re-sorts (line 141), which the event-level model confirms via its
sorted-`results` completion step. -/
theorem claim_C3_order_invariant (prior : AppState) (fileName : String) (t0 : Nat)
    (apiKey : String) (T : Nat) (envs : Nat → PageEnv) (tEnd : Nat)
    (hk : apiKey ≠ "") (henv : ∀ i ∈ List.range' 1 T, envOk (envs i)) :
    (handleFileUpload prior fileName t0 apiKey none T envs tEnd).docState.status
        = Status.completed ∧
    (handleFileUpload prior fileName t0 apiKey none T envs tEnd).docState.pages.length = T ∧
    ∀ (k : Nat)
      (hkk : k < (handleFileUpload prior fileName t0 apiKey none T envs tEnd).docState.pages.length),
      (((handleFileUpload prior fileName t0 apiKey none T envs tEnd).docState.pages).get
        ⟨k, hkk⟩).pageNumber = k + 1 := by
  obtain ⟨hstat, hpages⟩ := handleFileUpload_all_ok prior fileName t0 apiKey T envs tEnd hk henv
  refine ⟨hstat, by rw [hpages]; simp, ?_⟩
  intro k hkk
  simp only [List.get_eq_getElem, hpages, List.getElem_map, List.getElem_range', succPage]
  omega

/-- C3 witness: the amended theorem applied to a healthy one-page run. -/
theorem claim_C3_order_invariant_witness :
    (handleFileUpload emptyApp "a.pdf" 0 "key" none 1 okEnvs 9).docState.status
        = Status.completed ∧
    (handleFileUpload emptyApp "a.pdf" 0 "key" none 1 okEnvs 9).docState.pages.length = 1 ∧
    ∀ (k : Nat)
      (hkk : k < (handleFileUpload emptyApp "a.pdf" 0 "key" none 1 okEnvs 9).docState.pages.length),
      (((handleFileUpload emptyApp "a.pdf" 0 "key" none 1 okEnvs 9).docState.pages).get
        ⟨k, hkk⟩).pageNumber = k + 1 :=
  claim_C3_order_invariant emptyApp "a.pdf" 0 "key" 1 okEnvs 9 (by decide)
    (fun i _ => ⟨rfl, rfl, rfl, "T", by decide, rfl⟩)

/-! Claim C4. -/

/-- Any upload that reaches Completed carries the joined text of its final
pages. -/
theorem handleFileUpload_completed_fullText (prior : AppState) (fileName : String)
    (t0 : Nat) (apiKey : String) (loadFail : Option String) (T : Nat)
    (envs : Nat → PageEnv) (tEnd : Nat)
    (hc : (handleFileUpload prior fileName t0 apiKey loadFail T envs tEnd).docState.status
      = Status.completed) :
    (handleFileUpload prior fileName t0 apiKey loadFail T envs tEnd).docState.fullText =
      String.intercalate separator
        ((handleFileUpload prior fileName t0 apiKey loadFail T envs tEnd).docState.pages.map
          OCRPage.extractedText) := by
  cases loadFail with
  | some msg => exact absurd hc (fun h => Status.noConfusion h)
  | none =>
    rw [handleFileUpload_none_eq] at hc ⊢
    cases h22 : (runChunks apiKey T envs (chunksOf concurrencyLimit (List.range' 1 T))
        (handleFileUploadReset prior fileName t0) []).2.2 with
    | some msg =>
      simp only [h22] at hc
      exact absurd hc (fun h => Status.noConfusion h)
    | none =>
      obtain ⟨hterm, -, hstat⟩ := runChunks_fields apiKey T envs
        (chunksOf concurrencyLimit (List.range' 1 T)) (handleFileUploadReset prior fileName t0) []
      simp only [h22, hterm, Bool.false_eq_true, if_false] at hc ⊢
      rfl

/-- One extracted page of the worked example. -/
def exPage (i : Nat) (t : String) : OCRPage := ⟨i, t, "img", 2⟩

/-- Worked example: a 3-page run whose tasks settle in the order C, A, B. -/
def exCfg0 : Config := startConfig "scan.pdf" 0 3

/-- After page 3 ("C") settles. -/
def exCfg1 : Config :=
  { exCfg0 with
    app := { exCfg0.app with docState := pageUpdate 3 (exPage 3 "C") exCfg0.app.docState }
    pending := exCfg0.pending.erase 3
    results := exCfg0.results ++ [exPage 3 "C"] }

/-- After page 1 ("A") settles. -/
def exCfg2 : Config :=
  { exCfg1 with
    app := { exCfg1.app with docState := pageUpdate 3 (exPage 1 "A") exCfg1.app.docState }
    pending := exCfg1.pending.erase 1
    results := exCfg1.results ++ [exPage 1 "A"] }

/-- After page 2 ("B") settles. -/
def exCfg3 : Config :=
  { exCfg2 with
    app := { exCfg2.app with docState := pageUpdate 3 (exPage 2 "B") exCfg2.app.docState }
    pending := exCfg2.pending.erase 2
    results := exCfg2.results ++ [exPage 2 "B"] }

/-- After the final completion update. -/
def exCfg4 : Config :=
  { exCfg3 with
    app := { exCfg3.app with docState := { exCfg3.app.docState with
      pages := sortPages exCfg3.results
      fullText := String.intercalate separator
        ((sortPages exCfg3.results).map OCRPage.extractedText)
      status := Status.completed
      progress := 100
      totalDurationMs := some 9 } } }

/-- Page 3 settles first. -/
theorem exStep1 : RunStep exCfg0 exCfg1 :=
  RunStep.settle exCfg0 3 "C" "img" 2 (by decide) rfl

/-- Then page 1. -/
theorem exStep2 : RunStep exCfg1 exCfg2 :=
  RunStep.settle exCfg1 1 "A" "img" 2 (by decide) rfl

/-- Then page 2. -/
theorem exStep3 : RunStep exCfg2 exCfg3 :=
  RunStep.settle exCfg2 2 "B" "img" 2 (by decide) rfl

/-- Then the run completes. -/
theorem exStep4 : RunStep exCfg3 exCfg4 :=
  RunStep.complete exCfg3 9 (by decide) rfl

/-- The example run is a legal sequence of mutation events. -/
theorem exChain_reachable : ReachableRun exCfg0 exCfg4 :=
  Relation.ReflTransGen.head exStep1 (Relation.ReflTransGen.head exStep2
    (Relation.ReflTransGen.head exStep3 (Relation.ReflTransGen.single exStep4)))

/-- C4: for every run that reaches status Completed, `fullText` equals the
extracted texts of the final pages joined with the fixed separator
`"\n\n---\n\n"` in their stored (ascending `pageNumber`) order; and in the
worked example with texts "A", "B", "C" completing in the order C, A, B, the
completed `fullText` is exactly `"A" + SEP + "B" + SEP + "C"`. -/
theorem claim_C4_join :
    (∀ (prior : AppState) (fileName : String) (t0 : Nat) (apiKey : String)
      (loadFail : Option String) (T : Nat) (envs : Nat → PageEnv) (tEnd : Nat),
      (handleFileUpload prior fileName t0 apiKey loadFail T envs tEnd).docState.status
        = Status.completed →
      (handleFileUpload prior fileName t0 apiKey loadFail T envs tEnd).docState.fullText =
        String.intercalate separator
          ((handleFileUpload prior fileName t0 apiKey loadFail T envs tEnd).docState.pages.map
            OCRPage.extractedText)) ∧
    (ReachableRun exCfg0 exCfg4 ∧
     exCfg4.app.docState.status = Status.completed ∧
     exCfg4.app.docState.pages.map OCRPage.extractedText = ["A", "B", "C"] ∧
     exCfg4.app.docState.fullText = "A\n\n---\n\nB\n\n---\n\nC") :=
  ⟨handleFileUpload_completed_fullText,
   exChain_reachable, rfl, by decide, by decide⟩

/-- C4 witness: the general part applied to a healthy one-page run. -/
theorem claim_C4_join_witness :
    (handleFileUpload emptyApp "a.pdf" 0 "key" none 1 okEnvs 9).docState.fullText =
      String.intercalate separator
        ((handleFileUpload emptyApp "a.pdf" 0 "key" none 1 okEnvs 9).docState.pages.map
          OCRPage.extractedText) :=
  claim_C4_join.1 emptyApp "a.pdf" 0 "key" none 1 okEnvs 9 (by decide)

/-! Claim C5. -/

/-- C5: the scheduler partitions the indices `1..T` into consecutive chunks
of size at most `concurrencyLimit = 12`, dispatches the tasks of each chunk
concurrently, and never begins chunk `c+1` before all tasks of chunk `c` have
settled, so at every instant of the trace at most 12 page tasks are
outstanding; for `T = 25` exactly 3 chunks of sizes 12, 12, 1 are
dispatched.  The completion order of each chunk is an arbitrary rearrangement
`σ` of the chunk. -/
theorem claim_C5_scheduler :
    (∀ T : Nat, (chunksOf concurrencyLimit (List.range' 1 T)).flatten = List.range' 1 T) ∧
    (∀ (T : Nat) (c : List Nat), c ∈ chunksOf concurrencyLimit (List.range' 1 T) →
      c.length ≤ concurrencyLimit) ∧
    (∀ (T : Nat) (σ : List Nat → List Nat), (∀ c, List.Perm (σ c) c) →
      ∀ p, IsPre p (schedTrace concurrencyLimit T σ) → outstanding p ≤ concurrencyLimit) ∧
    (∀ (T : Nat) (σ : List Nat → List Nat), (∀ c, List.Perm (σ c) c) →
      ∀ p, IsPre p (schedTrace concurrencyLimit T σ) →
      ∀ a b, a < b →
      ∀ j ∈ (chunksOf concurrencyLimit (List.range' 1 T)).getD b [],
        SchedEvent.dispatch j ∈ p →
      ∀ i ∈ (chunksOf concurrencyLimit (List.range' 1 T)).getD a [],
        SchedEvent.settle i ∈ p) ∧
    (chunksOf concurrencyLimit (List.range' 1 25)).map List.length = [12, 12, 1] := by
  refine ⟨fun T => chunksOf_flatten _ _,
    fun T c hc => chunksOf_length_le (by decide) _ c hc,
    fun T σ hσ p hp => outstanding_le_of_chunks (fun c => (hσ c).length_eq)
      _ (fun c hc => chunksOf_length_le (by decide) _ c hc) p hp,
    fun T σ hσ p hp a b hab j hj hd i hi => settles_before_dispatch hσ _
      (by rw [chunksOf_flatten]; exact List.nodup_range' 1 T) p hp a b hab j hj hd i hi,
    by decide⟩

/-- C5 witness: the bound and the shape applied at `T = 25` with the identity
completion order. -/
theorem claim_C5_scheduler_witness :
    (∀ p, IsPre p (schedTrace concurrencyLimit 25 id) → outstanding p ≤ concurrencyLimit) ∧
    (chunksOf concurrencyLimit (List.range' 1 25)).map List.length = [12, 12, 1] :=
  ⟨claim_C5_scheduler.2.2.1 25 id (fun c => List.Perm.refl c),
   claim_C5_scheduler.2.2.2.2⟩

/-! Claim C6. -/

/-- The run over 256 pages after pages 1..255 settled successfully. -/
def cfg255 : Config := cfgAt 256 255

/-- The same run after the remaining in-flight task rejects and the `catch`
fires. -/
def cfgErr255 : Config := { cfg255 with app := applyError "boom" cfg255.app }

/-- C6 (counterexample): `progressPercent = 100` does NOT imply the run
reaches Completed.  With `T = 256` and 255 pages settled,
`Math.round(100 * 255 / 256) = 100` while the status is still Processing
(this floating-point computation is exact: 255/256 and its product with 100
are representable), and the run can then end in Error with `progress` still
100.  (Realizable: pages 1..255 settle chunk by chunk, then page 256 of the
last chunk is rejected.) -/
theorem claim_C6_counterexample :
    ReachableRun (startConfig "doc.pdf" 0 256) cfg255 ∧
    cfg255.app.docState.status = Status.processing ∧
    cfg255.app.docState.progress = 100 ∧
    RunStep cfg255 cfgErr255 ∧
    cfgErr255.app.docState.status = Status.error ∧
    cfgErr255.app.docState.progress = 100 := by
  refine ⟨cfgAt_reachable (by omega), rfl, ?_, RunStep.errStep cfg255 "boom" ?_, rfl, ?_⟩
  · show jsRound 255 256 = 100
    decide
  · intro h
    exact Status.noConfusion h
  · show jsRound 255 256 = 100
    decide

/-- C6 (amended): throughout a single run, `progressPercent` equals
`Math.round(100 * |pages| / totalPages)` while the status is Processing, is
monotonically non-decreasing for as long as the run stays in Processing, and
equals 100 whenever the run reaches Completed; however `progress = 100` can
already occur while still Processing (whenever `round(100 * m / T) = 100`
with `m < T`, possible for `T ≥ 200`), so reaching 100 does not imply
Completed. -/
theorem claim_C6_progress :
    (∀ (fileName : String) (t0 T : Nat) (cfg : Config),
      ReachableRun (startConfig fileName t0 T) cfg →
      cfg.app.docState.status = Status.processing →
      cfg.app.docState.progress = jsRound cfg.app.docState.pages.length T) ∧
    (∀ (fileName : String) (t0 T : Nat) (c c' : Config),
      ReachableRun (startConfig fileName t0 T) c → ReachableRun c c' →
      c'.app.docState.status = Status.processing →
      c.app.docState.progress ≤ c'.app.docState.progress) ∧
    (∀ (fileName : String) (t0 T : Nat) (cfg : Config),
      ReachableRun (startConfig fileName t0 T) cfg →
      cfg.app.docState.status = Status.completed →
      cfg.app.docState.progress = 100) := by
  refine ⟨?_, ?_, ?_⟩
  · intro f t0 T cfg hr hs
    have hI := Inv_reachable hr (Inv_start f t0 T)
    have hT : cfg.totalPages = T := ReachableRun_totalPages hr
    rw [hI.progressEq hs, hT]
  · intro f t0 T c c' hr hcc hs'
    exact ReachableRun_progress_mono hr (Inv_start f t0 T) hcc hs'
  · intro f t0 T cfg hr hs
    exact ((Inv_reachable hr (Inv_start f t0 T)).completedProps hs).1

/-- C6 witness: the three parts applied to concrete reachable
configurations: the start of a run, one settle step of the worked example,
and its completed final state. -/
theorem claim_C6_progress_witness :
    (startConfig "doc.pdf" 0 2).app.docState.progress =
      jsRound (startConfig "doc.pdf" 0 2).app.docState.pages.length 2 ∧
    exCfg0.app.docState.progress ≤ exCfg1.app.docState.progress ∧
    exCfg4.app.docState.progress = 100 :=
  ⟨claim_C6_progress.1 "doc.pdf" 0 2 (startConfig "doc.pdf" 0 2)
      Relation.ReflTransGen.refl rfl,
   claim_C6_progress.2.1 "scan.pdf" 0 3 exCfg0 exCfg1 Relation.ReflTransGen.refl
      (Relation.ReflTransGen.single exStep1) rfl,
   claim_C6_progress.2.2 "scan.pdf" 0 3 exCfg4 exChain_reachable rfl⟩

/-! Claim C7. -/

/-- C7: after every state mutation during a run, the `pages` sequence is
sorted in strictly ascending `pageNumber` order — in particular no two
entries share a `pageNumber` — regardless of the order in which tasks
settle: every reachable configuration satisfies it. -/
theorem claim_C7_sorted (fileName : String) (t0 T : Nat) (cfg : Config)
    (hreach : ReachableRun (startConfig fileName t0 T) cfg) :
    List.Pairwise (fun a b => a.pageNumber < b.pageNumber) cfg.app.docState.pages := by
  have hI := Inv_reachable hreach (Inv_start fileName t0 T)
  exact pairwise_lt_of_sorted_nodup hI.pagesSorted hI.pagesKeysNodup

/-- C7 witness: the theorem applied to the out-of-order worked example after
all three settles. -/
theorem claim_C7_sorted_witness :
    List.Pairwise (fun a b => a.pageNumber < b.pageNumber) exCfg3.app.docState.pages :=
  claim_C7_sorted "scan.pdf" 0 3 exCfg3
    (Relation.ReflTransGen.head exStep1 (Relation.ReflTransGen.head exStep2
      (Relation.ReflTransGen.single exStep3)))

/-! Claim C8. -/

/-- C8: starting a new run from any prior state — including Completed or
Error — resets `pages` to empty, `fullText` to empty, `progress` to 0,
clears the cancellation flag and the error banner, and enters Processing,
all before any page of the new run is processed (the reset is the first
mutation of `handleFileUpload`, and the whole run is a function of the reset
state only: the prior state is irrelevant to the run's outcome). -/
theorem claim_C8_restart (prior : AppState) (fileName : String) (t0 : Nat) :
    (handleFileUploadReset prior fileName t0).docState.pages = [] ∧
    (handleFileUploadReset prior fileName t0).docState.fullText = "" ∧
    (handleFileUploadReset prior fileName t0).docState.progress = 0 ∧
    (handleFileUploadReset prior fileName t0).isTerminated = false ∧
    (handleFileUploadReset prior fileName t0).apiError = none ∧
    (handleFileUploadReset prior fileName t0).docState.status = Status.processing ∧
    ∀ (prior' : AppState) (apiKey : String) (loadFail : Option String) (T : Nat)
      (envs : Nat → PageEnv) (tEnd : Nat),
      handleFileUpload prior fileName t0 apiKey loadFail T envs tEnd =
        handleFileUpload prior' fileName t0 apiKey loadFail T envs tEnd :=
  ⟨rfl, rfl, rfl, rfl, rfl, rfl, fun _ _ _ _ _ _ => rfl⟩

/-! Claim C9. -/

/-- C9: the `durationMs` recorded in a successful `PageResult` measures only
the span of the `performOCR` call: the timestamps are `pStart = t0 +
rasterMs` (immediately before the call, after rasterization) and `pEnd =
pStart + ocrMs` (immediately after), so the recorded duration equals `ocrMs`
for every rasterization time and every clock origin — rasterization time is
excluded. -/
theorem claim_C9_duration (c1 c2 : Bool) (apiKey : String) (env : PageEnv)
    (pageNum t0 : Nat) (page : OCRPage)
    (h : processPage c1 c2 apiKey env pageNum t0 = Except.ok (some page)) :
    page.durationMs = env.ocrMs := by
  cases c1 with
  | true => simp [processPage] at h
  | false =>
    cases hgp : env.getPageFail with
    | some m => simp [processPage, hgp] at h
    | none =>
      cases hctx : env.ctxOk with
      | false => simp [processPage, hgp, hctx] at h
      | true =>
        cases hrf : env.renderFail with
        | some m => simp [processPage, hgp, hctx, hrf] at h
        | none =>
          cases c2 with
          | true => simp [processPage, hgp, hctx, hrf] at h
          | false =>
            cases hoc : performOCR apiKey env.resp with
            | error m => simp [processPage, hgp, hctx, hrf, hoc] at h
            | ok text =>
              simp only [processPage, hgp, hctx, hrf, hoc, Bool.false_eq_true, if_false,
                if_true, Except.ok.injEq, Option.some.injEq] at h
              rw [← h]
              show t0 + env.rasterMs + env.ocrMs - (t0 + env.rasterMs) = env.ocrMs
              omega

/-- C9 witness: a task with 5 ms rasterization and 7 ms extraction records
7 ms. -/
theorem claim_C9_duration_witness :
    (⟨1, "T", "img", 7⟩ : OCRPage).durationMs =
      (⟨none, 5, true, none, "img", ServiceResp.ok "T", 7⟩ : PageEnv).ocrMs :=
  claim_C9_duration false false "key" ⟨none, 5, true, none, "img", ServiceResp.ok "T", 7⟩
    1 3 ⟨1, "T", "img", 7⟩ (by decide)

/-! Claim C10. -/

/-- An empty service text makes `performOCR` throw, whatever the key. -/
theorem performOCR_empty_err (apiKey : String) :
    ∃ m, performOCR apiKey (ServiceResp.ok "") = Except.error m := by
  by_cases hk : apiKey = ""
  · refine ⟨"API Key is missing. Please ensure process.env.API_KEY is configured.", ?_⟩
    unfold performOCR
    rw [if_pos hk]
  · refine ⟨"OCR Processing Failed: Empty response from AI model.", ?_⟩
    unfold performOCR
    rw [if_neg hk]
    rfl

/-- C10 (counterexample): the error that `performOCR` actually throws for an
empty service text is not `"Empty response from AI model."`: that inner
throw is caught by `performOCR`'s own `catch` and re-wrapped. -/
theorem claim_C10_counterexample :
    performOCR "key" (ServiceResp.ok "") ≠
      Except.error "Empty response from AI model." := by
  decide

/-- C10 (amended): if the extraction service returns an empty text,
`performOCR` throws — the inner `"Empty response from AI model."` throw is
caught by its own `catch` and surfaces as `"OCR Processing Failed: Empty
response from AI model."` — and this is a true failure, so a single page
with empty text aborts the whole run into the Error state; likewise, a
missing API key makes `performOCR` throw its key-missing error before any
service call is made (the result is independent of the service response). -/
theorem claim_C10_empty_response :
    (∀ apiKey : String, apiKey ≠ "" →
      performOCR apiKey (ServiceResp.ok "") =
        Except.error "OCR Processing Failed: Empty response from AI model.") ∧
    (∀ resp : ServiceResp,
      performOCR "" resp =
        Except.error "API Key is missing. Please ensure process.env.API_KEY is configured.") ∧
    (∀ (prior : AppState) (fileName : String) (t0 : Nat) (apiKey : String) (T : Nat)
      (envs : Nat → PageEnv) (tEnd : Nat) (i : Nat),
      i ∈ List.range' 1 T →
      (envs i).getPageFail = none → (envs i).ctxOk = true → (envs i).renderFail = none →
      (envs i).resp = ServiceResp.ok "" →
      (handleFileUpload prior fileName t0 apiKey none T envs tEnd).docState.status
        = Status.error) := by
  refine ⟨?_, ?_, ?_⟩
  · intro apiKey hk
    unfold performOCR
    rw [if_neg hk]
    rfl
  · intro resp
    unfold performOCR
    rw [if_pos rfl]
  · intro prior f t0 apiKey T envs tEnd i hi h1 h2 h3 h4
    obtain ⟨m, hm⟩ := performOCR_empty_err apiKey
    have hfail : ∃ msg, processPage false false apiKey (envs i) i 0 = Except.error msg :=
      ⟨m, by simp [processPage, h1, h2, h3, h4, hm]⟩
    exact (handleFileUpload_error_of_failing prior f t0 apiKey T envs tEnd ⟨i, hi, hfail⟩).1

/-- C10 witness: the wrapped message at a concrete key, the key-missing error
at a concrete response, and a one-page empty-text run ending in Error. -/
theorem claim_C10_empty_response_witness :
    performOCR "key" (ServiceResp.ok "") =
      Except.error "OCR Processing Failed: Empty response from AI model." ∧
    performOCR "" (ServiceResp.ok "hello") =
      Except.error "API Key is missing. Please ensure process.env.API_KEY is configured." ∧
    (handleFileUpload emptyApp "a.pdf" 0 "key" none 1 emptyTextEnvs 9).docState.status
      = Status.error :=
  ⟨claim_C10_empty_response.1 "key" (by decide),
   claim_C10_empty_response.2.1 (ServiceResp.ok "hello"),
   claim_C10_empty_response.2.2 emptyApp "a.pdf" 0 "key" 1 emptyTextEnvs 9 1
     (by decide) rfl rfl rfl rfl⟩
